import Mathlib

/-!
Verification development for the CS229 privacy-policy knowledge-base pipeline.

The Lean definitions below are shallow embeddings of the Python functions in
`backend/build_kb.py`, `backend/build_vocab.py`, `backend/generate_queries.py`,
`demo/main.py` and `augment/wordnet_augment.py`.  Text is modelled as `String`
(processed through its underlying `List Char`), regular-expression based
whitespace collapsing and character-class substitution are modelled by
structurally recursive character-list transformations, and the file-system
behaviour of the two CLI entry points is modelled as a trace of write events
paired with an optional fatal error.
-/

namespace CS229Privacy

/-- Whitespace test used to model the regular-expression class `\s`. -/
def isWsB (c : Char) : Bool := c.isWhitespace

/-- Model of Python `str.lower` on a character list (ASCII case folding). -/
def lowerL (l : List Char) : List Char := l.map Char.toLower

/-- Model of Python `str.lower` on a string. -/
def lowerS (s : String) : String := ⟨lowerL s.data⟩

/-- Occurrence of `n` as a contiguous segment of `h`; models Python `n in h`. -/
def subL : List Char → List Char → Bool
  | n, [] => n.isEmpty
  | n, c :: t => n.isPrefixOf (c :: t) || subL n t

/-- Substring test on strings; models Python `needle in hay`. -/
def containsSub (needle hay : String) : Bool := subL needle.data hay.data

/-- Character membership in a string; models Python `c in s`. -/
def charIn (c : Char) (s : String) : Bool := s.data.contains c

/-- Drop the trailing characters satisfying `p`; models the tail half of `strip`. -/
def dropTrailing (p : Char → Bool) (l : List Char) : List Char :=
  (l.reverse.dropWhile p).reverse

/-- Strip leading and trailing whitespace; models Python `str.strip()`. -/
def trimL (l : List Char) : List Char := dropTrailing isWsB (l.dropWhile isWsB)

/-- Models Python `str.strip()` on a string. -/
def trimS (s : String) : String := ⟨trimL s.data⟩

/-- Replace every occurrence of the character `a` by `b`;
models Python `s.replace(a, b)` for one-character patterns. -/
def replaceChar (a b : Char) (l : List Char) : List Char :=
  l.map (fun c => if c = a then b else c)

/-- Replace the ellipsis character by three dots; models `s.replace("…", "...")`. -/
def ellipsisToDots (l : List Char) : List Char :=
  l.flatMap (fun c => if c = '…' then ['.', '.', '.'] else [c])

/-- Collapse whitespace runs to single spaces; models `re.sub(r"\s+", " ", s)`.
The flag records whether the previous character belonged to a whitespace run. -/
def collapseWsAux : Bool → List Char → List Char
  | _, [] => []
  | inRun, c :: cs =>
    if isWsB c then
      if inRun then collapseWsAux true cs else ' ' :: collapseWsAux true cs
    else c :: collapseWsAux false cs

/-- Collapse every whitespace run to a single space. -/
def collapseWs (l : List Char) : List Char := collapseWsAux false l

/-- `norm` from `backend/build_kb.py`: lowercase, en/em dash to `-`,
ellipsis to `...`, collapse whitespace runs, strip. -/
def norm (s : String) : String :=
  ⟨trimL (collapseWs (ellipsisToDots (replaceChar '—' '-' (replaceChar '–' '-' (lowerL s.data)))))⟩

/-- `normalize` from `backend/build_vocab.py`: lowercase, en/em dash to `-`,
collapse whitespace runs, strip.  It performs no ellipsis replacement. -/
def normalize (s : String) : String :=
  ⟨trimL (collapseWs (replaceChar '—' '-' (replaceChar '–' '-' (lowerL s.data))))⟩

/-- `norm` from `backend/generate_queries.py`:
`re.sub(r"\s+", " ", s.strip().lower())`. -/
def normQ (s : String) : String := ⟨collapseWs (lowerL (trimL s.data))⟩

/-- Code-point lexicographic order on character lists; models Python string `<=`. -/
def lexLe : List Char → List Char → Bool
  | [], _ => true
  | _ :: _, [] => false
  | a :: as, b :: bs => if a = b then lexLe as bs else decide (a < b)

/-- Python string comparison used by `sorted`. -/
def strLe (a b : String) : Bool := lexLe a.data b.data

/-- Insert a string into a sorted list. -/
def insertSorted (x : String) : List String → List String
  | [] => [x]
  | y :: ys => if strLe x y then x :: y :: ys else y :: insertSorted x ys

/-- Insertion sort by code-point order; models Python `sorted` on strings. -/
def sortStrs : List String → List String
  | [] => []
  | x :: xs => insertSorted x (sortStrs xs)

/-- The seen-set deduplication of `build_kb.extract_facts` (lines 138-140):
`[f for f in facts if not (f in seen or seen.add(f))]` with `seen` threaded. -/
def dedupFirstAux : List String → List String → List String
  | [], _ => []
  | f :: rest, seen =>
    if f ∈ seen then dedupFirstAux rest seen else f :: dedupFirstAux rest (f :: seen)

/-- Deduplicate keeping the first occurrence of each line. -/
def dedupFirst (l : List String) : List String := dedupFirstAux l []

/-- The purpose keyword table of `extract_facts`, in declaration order. -/
def PURPOSE_MAP : List (String × String) :=
  [("provide", "provide_services"),
   ("deliver", "provide_services"),
   ("maintain", "maintain_services"),
   ("keep", "maintain_services"),
   ("improve", "improve_services"),
   ("personalize", "personalize_content_ads"),
   ("communicate", "communicate_with_users"),
   ("protect", "protect_from_fraud_abuse_security_risks"),
   ("fraud", "protect_from_fraud_abuse_security_risks"),
   ("abuse", "protect_from_fraud_abuse_security_risks"),
   ("security", "protect_from_fraud_abuse_security_risks"),
   ("risk", "protect_from_fraud_abuse_security_risks")]

/-- The matched canonical purposes, as a sorted duplicate-free list:
models collecting matched values in a `set` and iterating `sorted(purposes)`. -/
def purposeList (t : String) : List String :=
  sortStrs (dedupFirst ((PURPOSE_MAP.filter (fun kv => containsSub kv.1 t)).map Prod.snd))

/-- The technical-data marker list of `extract_facts`. -/
def techMarkers : List String :=
  ["device", "devices", "browser", "browsers", "app", "apps", "ip address", "ip"]

/-- The fact emissions of `build_kb.extract_facts` on the normalized text `t`,
in rule-declaration order, before deduplication (lines 44-136). -/
def rawFacts (t : String) : List String :=
  ["company(google).", "actor(google).", "actor(user)."]
  ++ (if containsSub "collect" t then ["collects(google, information)."] else [])
  ++ (if containsSub "google account" t then
        ["context(google_account)."]
        ++ (if containsSub "provide" t || containsSub "provided" t then
              ["collects(google, personal_information).",
               "purpose(google, personal_information, create_or_use_account)."]
            else [])
      else [])
  ++ (if containsSub "content" t then ["collects_content(google, user_content)."] else [])
  ++ (if containsSub "cookie" t then ["uses_technology(google, cookies)."] else [])
  ++ (if containsSub "server log" t || containsSub "server logs" t then
        ["uses_technology(google, server_logs)."] else [])
  ++ (if techMarkers.any (fun m => containsSub m t) then
        ["collects_tech_data(google, technical_data)."] else [])
  ++ (if containsSub "ip address" t then ["collects_tech_data(google, ip_address)."] else [])
  ++ (if containsSub "vary" t || containsSub "varies" t then
        ["varies_by(data_collection, service_usage).",
         "varies_by(data_collection, privacy_controls)."] else [])
  ++ (if containsSub "not signed" t || containsSub "not signed in" t then
        (if containsSub "unique identifier" t || containsSub "unique identifiers" t
            || containsSub "identifier" t then
          ["stores_under_identifier(google, unique_identifier, not_signed_in, remember_preferences)."]
         else [])
      else [])
  ++ (purposeList t).map (fun p => "uses_for(google, " ++ p ++ ").")
  ++ (if containsSub "retain" t || containsSub "retention" t || containsSub "kept" t then
        ["retains(google, data, retention_policy)."] else [])
  ++ (if containsSub "auto-delete" t || containsSub "auto delete" t then
        ["allows_setting(google, auto_delete)."] else [])
  ++ (if containsSub "delete" t then ["allows_setting(google, delete)."] else [])
  ++ (if containsSub "business needs" t then
        ["may_keep_longer_for(google, data, business_needs)."] else [])
  ++ (if containsSub "legal needs" t then
        ["may_keep_longer_for(google, data, legal_needs)."] else [])

/-- The parallel human-readable statement lines of `extract_facts` (not deduplicated). -/
def rawFol (t : String) : List String :=
  ["- company(google) ∧ actor(google) ∧ actor(user)."]
  ++ (if containsSub "collect" t then ["- collects(google, information)."] else [])
  ++ (if containsSub "google account" t then
        ["- context(google_account)."]
        ++ (if containsSub "provide" t || containsSub "provided" t then
              ["- collects(google, personal_information) ∧ purpose(google, personal_information, create_or_use_account)."]
            else [])
      else [])
  ++ (if containsSub "content" t then ["- collects_content(google, user_content)."] else [])
  ++ (if containsSub "cookie" t then ["- uses_technology(google, cookies)."] else [])
  ++ (if containsSub "server log" t || containsSub "server logs" t then
        ["- uses_technology(google, server_logs)."] else [])
  ++ (if techMarkers.any (fun m => containsSub m t) then
        ["- collects_tech_data(google, technical_data)."] else [])
  ++ (if containsSub "ip address" t then ["- collects_tech_data(google, ip_address)."] else [])
  ++ (if containsSub "vary" t || containsSub "varies" t then
        ["- varies_by(data_collection, service_usage) ∧ varies_by(data_collection, privacy_controls)."]
      else [])
  ++ (if containsSub "not signed" t || containsSub "not signed in" t then
        (if containsSub "unique identifier" t || containsSub "unique identifiers" t
            || containsSub "identifier" t then
          ["- stores_under_identifier(google, unique_identifier, not_signed_in, remember_preferences)."]
         else [])
      else [])
  ++ (purposeList t).map (fun p => "- uses_for(google, " ++ p ++ ").")
  ++ (if containsSub "retain" t || containsSub "retention" t || containsSub "kept" t then
        ["- retains(google, data, retention_policy)."] else [])
  ++ (if containsSub "auto-delete" t || containsSub "auto delete" t then
        ["- allows_setting(google, auto_delete)."] else [])
  ++ (if containsSub "delete" t then ["- allows_setting(google, delete)."] else [])
  ++ (if containsSub "business needs" t then
        ["- may_keep_longer_for(google, data, business_needs)."] else [])
  ++ (if containsSub "legal needs" t then
        ["- may_keep_longer_for(google, data, legal_needs)."] else [])

/-- `build_kb.extract_facts`: normalize the text, emit the rule battery in
declaration order, and deduplicate the fact list keeping first occurrences. -/
def extract_facts (text : String) : List String × List String :=
  let t := norm text
  (dedupFirst (rawFacts t), rawFol t)

/-- Specification-side deduplication: keep each entry and erase its later
duplicates in place, so every retained entry sits at its first emission. -/
def keepFirsts : List String → List String
  | [] => []
  | x :: xs => x :: keepFirsts (xs.filter (fun y => decide (y ≠ x)))
termination_by l => l.length
decreasing_by
  simp only [List.length_cons]
  exact Nat.lt_succ_of_le (List.length_filter_le _ _)

/-- Split a character list on a separator character, with an accumulator for
the current segment; models Python `str.split(sep)`. -/
def splitCharAux (sep : Char) : List Char → List Char → List (List Char)
  | [], cur => [cur.reverse]
  | c :: cs, cur =>
    if c = sep then cur.reverse :: splitCharAux sep cs []
    else splitCharAux sep cs (c :: cur)

/-- Models Python `str.split(sep)` for a one-character separator. -/
def splitChar (sep : Char) (l : List Char) : List (List Char) := splitCharAux sep l []

/-- The response record of `POST /api/query/execute` in `demo/main.py`. -/
structure QueryResponse where
  query : String
  predicate : String
  results : List String
  count : Nat
  note : String
deriving DecidableEq

/-- The lowercased, stripped query: `query = req.query.strip(); query_lower = query.lower()`. -/
def queryLowerOf (q : String) : String := lowerS (trimS q)

/-- Predicate-name extraction of `execute_query` (lines 253-256):
`query_lower.split("(")[0].strip()` when a `(` is present, else `query_lower.strip()`. -/
def extractPredicate (queryLower : String) : String :=
  if charIn '(' queryLower then trimS ⟨(splitChar '(' queryLower.data).headD []⟩
  else trimS queryLower

/-- The resolved predicate for a raw query string. -/
def predicateOf (q : String) : String := extractPredicate (queryLowerOf q)

/-- The primary-KB scan of `execute_query` (lines 259-263): keep the facts whose
lowercase form starts with `predicate(`. -/
def predPrefixScan (pred : String) (kb : List String) : List String :=
  kb.filter (fun fact => (pred ++ "(").data.isPrefixOf (lowerS fact).data)

/-- The auxiliary augmented-KB scan of `execute_query` (lines 266-272): append
matches of `predicate(` and stop once the accumulated results reach 20. -/
def augScanLoop (pred : String) : List String → List String → List String
  | [], results => results
  | f :: rest, results =>
    if (pred ++ "(").data.isPrefixOf (lowerS f).data then
      if 20 ≤ (results ++ [f]).length then results ++ [f]
      else augScanLoop pred rest (results ++ [f])
    else augScanLoop pred rest results

/-- The results of the exact scans (primary KB plus, for the two augmentation
predicates, the auxiliary KB), before any fuzzy fallback. -/
def exactResults (q : String) (kb aug : List String) : List String :=
  let p := predicateOf q
  let r1 := predPrefixScan p kb
  if p == "synonym" || p == "is_a" then augScanLoop p aug r1 else r1

/-- Argument parsing of the fuzzy fallback (lines 276-278):
`query_lower.split("(")[1].rstrip(")")` split on `,` with each piece stripped. -/
def parseArgs (queryLower : String) : List String :=
  let argsPart := dropTrailing (fun c => c = ')') ((splitChar '(' queryLower.data).getD 1 [])
  (splitChar ',' argsPart).map (fun a => trimS ⟨a⟩)

/-- The fuzzy fallback scan (lines 280-283): keep the primary facts containing
every parsed argument, ignoring empty arguments and the placeholder `x`. -/
def fuzzyScan (queryLower : String) (kb : List String) : List String :=
  let args := parseArgs queryLower
  kb.filter (fun fact =>
    args.all (fun arg => arg == "" || arg == "x" || containsSub arg (lowerS fact)))

/-- `execute_query` from `demo/main.py` (lines 230-291). -/
def execute_query (q : String) (kb aug : List String) : QueryResponse :=
  let r2 := exactResults q kb aug
  let results :=
    if r2.isEmpty && charIn '(' (queryLowerOf q) then fuzzyScan (queryLowerOf q) kb else r2
  { query := q
    predicate := predicateOf q
    results := results
    count := results.length
    note := if results.isEmpty then "No exact match found"
            else "Matched predicate: " ++ predicateOf q ++ "/N" }

/-- Specification-side predicate extraction: the text before the first `(`
(the whole trimmed string when no `(` is present), trimmed. -/
def predicateSpec (q : String) : String :=
  let ql := queryLowerOf q
  if charIn '(' ql then trimS ⟨ql.data.takeWhile (fun c => !(c == '('))⟩
  else trimS ql

/-- Predicate signature record of `build_vocab.py`. -/
structure PredicateSig where
  name : String
  arity : Nat
  template : String
deriving DecidableEq

/-- The fixed predicate catalog `DEFAULT_PREDICATES` of `build_vocab.py`. -/
def DEFAULT_PREDICATES : List (String × Nat × String) :=
  [("collects", 2, "collects(Actor, DataType)"),
   ("collects_content", 2, "collects_content(Actor, ContentType)"),
   ("collects_tech_data", 2, "collects_tech_data(Actor, TechDataType)"),
   ("uses_technology", 2, "uses_technology(Actor, Technology)"),
   ("uses_for", 2, "uses_for(Actor, Purpose)"),
   ("purpose", 3, "purpose(Actor, DataType, Purpose)"),
   ("varies_by", 2, "varies_by(Process, Factor)  % e.g., varies_by(data_collection, privacy_controls)"),
   ("stores_under_identifier", 4, "stores_under_identifier(Actor, IdentifierType, Context, Purpose)"),
   ("retains", 3, "retains(Actor, DataType, RetentionPolicy)"),
   ("allows_setting", 2, "allows_setting(Actor, SettingAction)  % e.g., delete/auto_delete"),
   ("may_keep_longer_for", 3, "may_keep_longer_for(Actor, DataType, Reason)")]

/-- The trigger-keyword table `PREDICATE_TRIGGER_KEYWORDS` of `build_vocab.py`. -/
def PREDICATE_TRIGGER_KEYWORDS : List (String × List String) :=
  [("collects", ["collect", "collects", "information", "data", "personal information", "content"]),
   ("collects_content", ["content"]),
   ("collects_tech_data", ["device", "ip address", "cookies", "server logs", "logs"]),
   ("uses_technology", ["cookies", "server logs", "logs"]),
   ("uses_for", ["use", "uses", "purpose", "provide", "improve", "protect", "personalize", "communicate"]),
   ("purpose", ["purpose", "use", "uses"]),
   ("varies_by", ["vary", "varies", "privacy controls"]),
   ("stores_under_identifier", ["unique identifier", "unique identifiers", "identifier"]),
   ("retains", ["retain", "retention", "kept longer", "keep longer"]),
   ("allows_setting", ["delete", "auto-delete", "auto delete"]),
   ("may_keep_longer_for", ["business", "legal", "business needs", "legal needs"])]

/-- `PREDICATE_TRIGGER_KEYWORDS.get(name, [])`. -/
def triggersFor (name : String) : List String :=
  (PREDICATE_TRIGGER_KEYWORDS.lookup name).getD []

/-- Models Python `" ".join`. -/
def spaceJoin : List String → String
  | [] => ""
  | [x] => x
  | x :: xs => x ++ " " ++ spaceJoin xs

/-- The scan target of `pick_predicates`:
`normalize(text) + " " + " ".join(sorted(terms))`, where `terms` is a set,
modelled here as a list whose distinct elements are sorted. -/
def joinedFor (text : String) (terms : List String) : String :=
  normalize text ++ " " ++ spaceJoin (sortStrs (dedupFirst terms))

/-- Trigger test of `pick_predicates`: some trigger keyword of the entry,
normalized, occurs in the joined text. -/
def triggered (joined : String) (name : String) : Bool :=
  (triggersFor name).any (fun tr => containsSub (normalize tr) joined)

/-- `build_vocab.pick_predicates` (lines 169-187). -/
def pick_predicates (text : String) (terms : List String) : List PredicateSig :=
  let joined := joinedFor text terms
  let selected := (DEFAULT_PREDICATES.filter (fun p => triggered joined p.1)).map
    (fun p => PredicateSig.mk p.1 p.2.1 p.2.2)
  if selected.isEmpty then
    [PredicateSig.mk "collects" 2 "collects(Actor, DataType)",
     PredicateSig.mk "uses_for" 2 "uses_for(Actor, Purpose)"]
  else selected

/-- One question-mapping rule of `generate_queries.map_question_to_query`. -/
structure QRule where
  cond : String → Bool
  expr : String
  shape : String

/-- The sentinel expression returned when no mapping rule matches. -/
def TODO_EXPR : String := "% TODO: add mapping rule for this question."

/-- The mapped query of the retention question (rule 8). -/
def RETAIN_EXPR : String :=
  "retains(google, data, Policy), allows_setting(google, delete), (allows_setting(google, auto_delete) ; true)."

/-- The rule table of `map_question_to_query` (lines 58-73), in declared order. -/
def RULES : List QRule :=
  [⟨fun t => containsSub "what information" t && containsSub "collect" t,
    "collects(google, X).", "X (all collected data types)"⟩,
   ⟨fun t => containsSub "why" t && (containsSub "collect" t || containsSub "use" t),
    "uses_for(google, Purpose).", "Purpose (all purposes)"⟩,
   ⟨fun t => containsSub "depend" t && containsSub "privacy control" t,
    "varies_by(data_collection, privacy_controls).", "true/false"⟩,
   ⟨fun t => containsSub "not signed" t && containsSub "identifier" t,
    "stores_under_identifier(google, unique_identifier, not_signed_in, Purpose).", "Purpose"⟩,
   ⟨fun t => containsSub "google account" t && (containsSub "what" t || containsSub "information" t),
    "purpose(google, personal_information, create_or_use_account).", "true/false"⟩,
   ⟨fun t => containsSub "content" t
      && (containsSub "create" t || containsSub "upload" t || containsSub "collect" t),
    "collects_content(google, X).", "X (content type)"⟩,
   ⟨fun t => (containsSub "technology" t || containsSub "technologies" t)
      && (containsSub "cookie" t || containsSub "server log" t || containsSub "logs" t),
    "uses_technology(google, Tech).", "Tech"⟩,
   ⟨fun t => (containsSub "how long" t || containsSub "retain" t || containsSub "keep data" t)
      && (containsSub "delete" t || containsSub "auto" t),
    RETAIN_EXPR, "Policy + delete/auto-delete availability"⟩]

/-- First-match evaluation over a rule list, with the sentinel fallback. -/
def findRule : List QRule → String → String × String
  | [], _ => (TODO_EXPR, "N/A")
  | r :: rs, t => if r.cond t then (r.expr, r.shape) else findRule rs t

/-- `generate_queries.map_question_to_query` (lines 54-74): normalize the
question and take the first matching rule of the fixed chain. -/
def map_question_to_query (qtext : String) : String × String :=
  findRule RULES (normQ qtext)

/-- Characters kept verbatim by the slug rule: `[a-z0-9]`. -/
def isSlugChar (c : Char) : Bool :=
  (decide ('a' ≤ c) && decide (c ≤ 'z')) || (decide ('0' ≤ c) && decide (c ≤ '9'))

/-- `re.sub(r"[^a-z0-9]+", "_", s)`: collapse each run of characters outside
`[a-z0-9]` to a single underscore.  The flag records being inside such a run. -/
def slugCollapseAux : Bool → List Char → List Char
  | _, [] => []
  | inRun, c :: cs =>
    if isSlugChar c then c :: slugCollapseAux false cs
    else if inRun then slugCollapseAux true cs
    else '_' :: slugCollapseAux true cs

/-- Models Python `s.strip("_")`. -/
def stripUnd (l : List Char) : List Char :=
  dropTrailing (fun c => c = '_') (l.dropWhile (fun c => c = '_'))

/-- The final steps of `slug` (lines 26-29): empty result becomes the sentinel
`x`, and a leading digit is escaped with the `x_` marker. -/
def slugFinish : List Char → String
  | [] => "x"
  | c :: cs => if c.isDigit then "x_" ++ ⟨c :: cs⟩ else ⟨c :: cs⟩

/-- `slug` from `augment/wordnet_augment.py` (lines 21-29). -/
def slug (s : String) : String :=
  slugFinish (stripUnd (slugCollapseAux false (lowerL s.data)))

/-- Characters kept verbatim by the vocabulary constant rule: `[a-z0-9_]`. -/
def isVocabChar (c : Char) : Bool := isSlugChar c || decide (c = '_')

/-- The constant-forming rule of `build_vocab.write_prolog` (line 232):
`re.sub(r"[^a-z0-9_]", "_", it.lower())`, one underscore per character. -/
def vocabConst (s : String) : String :=
  ⟨(lowerL s.data).map (fun c => if isVocabChar c then c else '_')⟩

/-- Models Python `"\n".join`. -/
def nlJoin : List String → String
  | [] => ""
  | [x] => x
  | x :: xs => x ++ "\n" ++ nlJoin xs

/-- The path of the required paragraph source of `build_kb.main`. -/
def KB_PAR_PATH : String := "data/paragraph.txt"

/-- The fact-file artifact path of `build_kb.main`. -/
def KB_OUT_PATH : String := "kb/kb.pl"

/-- The human-readable summary artifact path of `build_kb.main`. -/
def FOL_MD_PATH : String := "kb/kb_fol.md"

/-- The fixed derived-rule block appended by `build_kb.write_kb`. -/
def kbRules : List String :=
  ["", "% --- derived relations (optional) ---", "technology(T) :- uses_technology(google, T)."]

/-- The fact-file text written by `build_kb.write_kb`. -/
def kbFileText (facts : List String) : String :=
  nlJoin (["% kb.pl (auto-generated)"] ++ facts ++ kbRules) ++ "\n"

/-- The summary text written by `build_kb.write_fol_md`. -/
def folFileText (lines : List String) : String :=
  nlJoin (["Manual Translation Summary (FOL-ish)\n", "## Statements derived from the paragraph\n"]
    ++ lines)

/-- The file-system state visible to `build_kb.main`. -/
structure KbFS where
  paragraphExists : Bool
  paragraphText : String

/-- Run model of `build_kb.main` (lines 162-170): the list of file writes the
run performs, in order, paired with the fatal error message if it raises.
The existence check precedes every write, so a missing paragraph yields an
empty write trace. -/
def buildKbMain (fs : KbFS) : List (String × String) × Option String :=
  if fs.paragraphExists then
    let fl := extract_facts (trimS fs.paragraphText)
    ([(KB_OUT_PATH, kbFileText fl.1), (FOL_MD_PATH, folFileText fl.2)], none)
  else ([], some ("Missing " ++ KB_PAR_PATH))

/-- The inputs visible to `build_vocab.main`. -/
structure VocabFS where
  paragraphPath : String
  paragraphExists : Bool
  outdir : String

/-- Run model of `build_vocab.main` (lines 242-283) at artifact-path
granularity: the paths written, in order, paired with the fatal error message
if it raises.  The existence check precedes every write. -/
def buildVocabMain (fs : VocabFS) : List String × Option String :=
  if fs.paragraphExists then
    ([fs.outdir ++ "/vocabulary.json", fs.outdir ++ "/vocabulary.md", fs.outdir ++ "/vocab.pl"],
     none)
  else ([], some ("paragraph not found: " ++ fs.paragraphPath))

/-! ### Helper lemmas -/

theorem mem_dedupFirstAux (l : List String) :
    ∀ (seen : List String) (x : String), x ∈ dedupFirstAux l seen → x ∉ seen := by
  induction l with
  | nil => intro seen x h; simp [dedupFirstAux] at h
  | cons f rest ih =>
    intro seen x h
    by_cases hf : f ∈ seen
    · simp only [dedupFirstAux, if_pos hf] at h
      exact ih seen x h
    · simp only [dedupFirstAux, if_neg hf] at h
      rcases List.mem_cons.mp h with rfl | h2
      · exact hf
      · have h3 := ih (f :: seen) x h2
        exact fun hx => h3 (List.mem_cons_of_mem _ hx)

theorem nodup_dedupFirstAux (l : List String) :
    ∀ (seen : List String), (dedupFirstAux l seen).Nodup := by
  induction l with
  | nil => intro seen; simp [dedupFirstAux]
  | cons f rest ih =>
    intro seen
    by_cases hf : f ∈ seen
    · simp only [dedupFirstAux, if_pos hf]; exact ih seen
    · simp only [dedupFirstAux, if_neg hf]
      refine List.nodup_cons.mpr ⟨?_, ih (f :: seen)⟩
      intro hmem
      exact mem_dedupFirstAux rest (f :: seen) f hmem (List.mem_cons_self f seen)

theorem dedupFirstAux_eq_keepFirsts (l : List String) :
    ∀ (seen : List String),
      dedupFirstAux l seen = keepFirsts (l.filter (fun y => decide (y ∉ seen))) := by
  induction l with
  | nil => intro seen; simp [dedupFirstAux, keepFirsts]
  | cons f rest ih =>
    intro seen
    by_cases hf : f ∈ seen
    · simp only [dedupFirstAux, if_pos hf]
      rw [ih seen]
      congr 1
      simp only [List.filter_cons]
      rw [if_neg (by simpa using hf)]
    · simp only [dedupFirstAux, if_neg hf]
      rw [ih (f :: seen)]
      have hcons : (f :: rest).filter (fun y => decide (y ∉ seen))
          = f :: rest.filter (fun y => decide (y ∉ seen)) := by
        simp only [List.filter_cons]
        rw [if_pos (by simpa using hf)]
      rw [hcons, keepFirsts, List.filter_filter]
      congr 1
      refine congrArg keepFirsts (List.filter_congr ?_)
      intro x _
      by_cases h1 : x = f <;> by_cases h2 : x ∈ seen <;> simp [h1, h2]

theorem dedupFirst_eq_keepFirsts (l : List String) : dedupFirst l = keepFirsts l := by
  rw [dedupFirst, dedupFirstAux_eq_keepFirsts]
  congr 1
  apply List.filter_eq_self.mpr
  intro a _
  simp

theorem subL_eq_true_iff (n : List Char) : ∀ (h : List Char), subL n h = true ↔ n <:+: h := by
  intro h
  induction h with
  | nil => simp [subL, List.isEmpty_iff, List.infix_nil]
  | cons c t ih =>
    simp only [subL, Bool.or_eq_true]
    rw [ih, List.infix_cons_iff]
    constructor
    · rintro (hp | hi)
      · exact Or.inl (List.isPrefixOf_iff_prefix.mp hp)
      · exact Or.inr hi
    · rintro (hp | hi)
      · exact Or.inl (List.isPrefixOf_iff_prefix.mpr hp)
      · exact Or.inr hi

theorem containsSub_append_left (a b : String) : containsSub b (a ++ b) = true := by
  rw [containsSub, subL_eq_true_iff, String.data_append]
  exact (List.suffix_append a.data b.data).isInfix

theorem charOfNat_toNat {n : Nat} (h1 : 65 ≤ n) (h2 : n ≤ 90) :
    (Char.ofNat (n + 32)).toNat = n + 32 := by
  have hv : (n + 32).isValidChar := Or.inl (by omega)
  rw [Char.ofNat, dif_pos hv]
  simp [Char.ofNatAux, Char.toNat, UInt32.toNat]

theorem toLower_toNat (c : Char) :
    (Char.toLower c).toNat = if 65 ≤ c.toNat ∧ c.toNat ≤ 90 then c.toNat + 32 else c.toNat := by
  unfold Char.toLower
  by_cases h : c.toNat ≥ 65 ∧ c.toNat ≤ 90
  · rw [if_pos h, if_pos ⟨h.1, h.2⟩]
    exact charOfNat_toNat h.1 h.2
  · rw [if_neg h, if_neg (fun hc => h ⟨hc.1, hc.2⟩)]

theorem charToNat_inj {a b : Char} (h : a.toNat = b.toNat) : a = b := by
  apply Char.ext
  have hbv : a.val.toBitVec = b.val.toBitVec := BitVec.toNat_injective h
  cases a with
  | mk v hv =>
    cases b with
    | mk w hw =>
      cases v; cases w
      simp_all

theorem toLower_idem (c : Char) : Char.toLower (Char.toLower c) = Char.toLower c := by
  apply charToNat_inj
  rw [toLower_toNat (Char.toLower c), toLower_toNat c]
  by_cases h : 65 ≤ c.toNat ∧ c.toNat ≤ 90
  · rw [if_pos h, if_neg (by omega)]
  · rw [if_neg h, if_neg h]

theorem toLower_eq_lparen_iff (c : Char) : Char.toLower c = '(' ↔ c = '(' := by
  constructor
  · intro h
    have hn := congrArg Char.toNat h
    rw [toLower_toNat] at hn
    have h40 : ('(' : Char).toNat = 40 := by decide
    rw [h40] at hn
    by_cases hr : 65 ≤ c.toNat ∧ c.toNat ≤ 90
    · rw [if_pos hr] at hn
      omega
    · rw [if_neg hr] at hn
      exact charToNat_inj (by rw [hn, h40])
  · intro h
    rw [h]
    decide

theorem mem_dropWhile_of_mem {p : Char → Bool} {c : Char} :
    ∀ {l : List Char}, c ∈ l → p c = false → c ∈ l.dropWhile p := by
  intro l
  induction l with
  | nil => intro h; simp at h
  | cons a t ih =>
    intro h hc
    by_cases ha : p a = true
    · rw [List.dropWhile_cons_of_pos ha]
      rcases List.mem_cons.mp h with rfl | h2
      · rw [hc] at ha; simp at ha
      · exact ih h2 hc
    · rw [List.dropWhile_cons_of_neg ha]
      exact h

theorem mem_of_mem_dropWhileL {p : Char → Bool} {c : Char} {l : List Char}
    (h : c ∈ l.dropWhile p) : c ∈ l :=
  (List.dropWhile_sublist p).mem h

theorem mem_dropTrailing_iff {p : Char → Bool} {c : Char} {l : List Char} (hc : p c = false) :
    c ∈ dropTrailing p l ↔ c ∈ l := by
  rw [dropTrailing, List.mem_reverse]
  constructor
  · intro h
    exact List.mem_reverse.mp (mem_of_mem_dropWhileL h)
  · intro h
    exact mem_dropWhile_of_mem (List.mem_reverse.mpr h) hc

theorem mem_trimL_iff {c : Char} {l : List Char} (hc : isWsB c = false) :
    c ∈ trimL l ↔ c ∈ l := by
  rw [trimL, mem_dropTrailing_iff hc]
  constructor
  · exact mem_of_mem_dropWhileL
  · intro h
    exact mem_dropWhile_of_mem h hc

theorem mem_of_mem_trimL {c : Char} {l : List Char} (h : c ∈ trimL l) : c ∈ l := by
  simp only [trimL, dropTrailing] at h
  exact mem_of_mem_dropWhileL (List.mem_reverse.mp (mem_of_mem_dropWhileL (List.mem_reverse.mp h)))

theorem charIn_lparen_lowerS (s : String) : charIn '(' (lowerS s) = charIn '(' s := by
  simp only [charIn, lowerS, lowerL]
  rw [Bool.eq_iff_iff, List.elem_iff, List.elem_iff, List.mem_map]
  constructor
  · rintro ⟨a, ha, hla⟩
    rw [(toLower_eq_lparen_iff a).mp hla] at ha
    exact ha
  · intro h
    exact ⟨'(', h, by decide⟩

theorem charIn_lparen_trimS (s : String) : charIn '(' (trimS s) = charIn '(' s := by
  simp only [charIn, trimS]
  rw [Bool.eq_iff_iff, List.elem_iff, List.elem_iff]
  exact mem_trimL_iff (by decide)

theorem charIn_lparen_queryLower (q : String) : charIn '(' (queryLowerOf q) = charIn '(' q := by
  rw [queryLowerOf, charIn_lparen_lowerS, charIn_lparen_trimS]

theorem splitCharAux_headD (sep : Char) :
    ∀ (l cur : List Char),
      (splitCharAux sep l cur).headD [] = cur.reverse ++ l.takeWhile (fun c => !(c == sep)) := by
  intro l
  induction l with
  | nil => intro cur; simp [splitCharAux]
  | cons c cs ih =>
    intro cur
    by_cases hc : c = sep
    · subst hc
      simp [splitCharAux, List.takeWhile_cons]
    · simp only [splitCharAux, if_neg hc]
      rw [ih (c :: cur)]
      simp [List.takeWhile_cons, hc]

theorem predicateOf_eq_spec (q : String) : predicateOf q = predicateSpec q := by
  rw [predicateOf, extractPredicate, predicateSpec]
  by_cases h : charIn '(' (queryLowerOf q) = true
  · rw [if_pos h, if_pos h]
    congr 2
    rw [splitChar, splitCharAux_headD]
    simp
  · rw [if_neg h, if_neg h]

theorem execute_query_results_of_exact_ne (q : String) (kb aug : List String)
    (h : exactResults q kb aug ≠ []) :
    (execute_query q kb aug).results = exactResults q kb aug := by
  simp only [execute_query]
  rw [List.isEmpty_eq_false.mpr h]
  simp

theorem execute_query_results_of_no_paren (q : String) (kb aug : List String)
    (h : charIn '(' (queryLowerOf q) = false) :
    (execute_query q kb aug).results = exactResults q kb aug := by
  simp only [execute_query]
  rw [h]
  simp

theorem execute_query_results_fuzzy (q : String) (kb aug : List String)
    (h1 : exactResults q kb aug = []) (h2 : charIn '(' (queryLowerOf q) = true) :
    (execute_query q kb aug).results = fuzzyScan (queryLowerOf q) kb := by
  simp only [execute_query]
  rw [h1, h2]
  simp

theorem exactResults_of_plain (q : String) (kb aug : List String)
    (h : (predicateOf q == "synonym" || predicateOf q == "is_a") = false) :
    exactResults q kb aug = predPrefixScan (predicateOf q) kb := by
  simp only [exactResults]
  rw [h]
  simp

theorem mem_collapseWsAux {c : Char} :
    ∀ (l : List Char) (flag : Bool),
      c ∈ collapseWsAux flag l → c = ' ' ∨ (c ∈ l ∧ isWsB c = false) := by
  intro l
  induction l with
  | nil => intro flag h; simp [collapseWsAux] at h
  | cons a t ih =>
    intro flag h
    by_cases ha : isWsB a = true
    · cases flag with
      | true =>
        simp only [collapseWsAux, if_pos ha, if_pos rfl] at h
        rcases ih true h with h1 | ⟨h2, h3⟩
        · exact Or.inl h1
        · exact Or.inr ⟨List.mem_cons_of_mem _ h2, h3⟩
      | false =>
        simp only [collapseWsAux, if_pos ha] at h
        rcases List.mem_cons.mp h with rfl | h2
        · exact Or.inl rfl
        · rcases ih true h2 with h1 | ⟨h3, h4⟩
          · exact Or.inl h1
          · exact Or.inr ⟨List.mem_cons_of_mem _ h3, h4⟩
    · simp only [collapseWsAux, if_neg ha] at h
      rcases List.mem_cons.mp h with rfl | h2
      · exact Or.inr ⟨List.mem_cons_self _ _, by simpa using ha⟩
      · rcases ih false h2 with h1 | ⟨h3, h4⟩
        · exact Or.inl h1
        · exact Or.inr ⟨List.mem_cons_of_mem _ h3, h4⟩

theorem head_collapseWsAux_not_ws :
    ∀ (l : List Char) (c : Char),
      (collapseWsAux true l).head? = some c → isWsB c = false := by
  intro l
  induction l with
  | nil => intro c h; simp [collapseWsAux] at h
  | cons a t ih =>
    intro c h
    by_cases ha : isWsB a = true
    · simp only [collapseWsAux, if_pos ha, if_pos rfl] at h
      exact ih c h
    · simp only [collapseWsAux, if_neg ha, List.head?_cons] at h
      injection h with h2
      subst h2
      simpa using ha

theorem chain_collapseWsAux :
    ∀ (l : List Char) (flag : Bool),
      List.Chain' (fun a b => ¬(a = ' ' ∧ b = ' ')) (collapseWsAux flag l) := by
  intro l
  induction l with
  | nil => intro flag; simp [collapseWsAux]
  | cons a t ih =>
    intro flag
    by_cases ha : isWsB a = true
    · cases flag with
      | true =>
        simp only [collapseWsAux, if_pos ha, if_pos rfl]
        exact ih true
      | false =>
        simp only [collapseWsAux, if_pos ha]
        refine List.chain'_cons'.mpr ⟨?_, ih true⟩
        intro y hy
        rintro ⟨-, h2⟩
        have h3 := head_collapseWsAux_not_ws t y hy
        rw [h2] at h3
        exact absurd h3 (by decide)
    · simp only [collapseWsAux, if_neg ha]
      refine List.chain'_cons'.mpr ⟨?_, ih false⟩
      intro y hy
      rintro ⟨h1, -⟩
      rw [h1] at ha
      exact ha (by decide)

theorem dropTrailing_front (p : Char → Bool) (l : List Char) : dropTrailing p l <+: l := by
  rw [dropTrailing]
  apply List.reverse_suffix.mp
  rw [List.reverse_reverse]
  exact List.dropWhile_suffix p

theorem trimL_within (l : List Char) : trimL l <:+: l := by
  rw [trimL]
  exact List.infix_iff_prefix_suffix.mpr
    ⟨l.dropWhile isWsB, dropTrailing_front isWsB (l.dropWhile isWsB), List.dropWhile_suffix isWsB⟩

theorem head?_some_of_front {l1 l2 : List Char} (h : l1 <+: l2) {c : Char}
    (hc : l1.head? = some c) : l2.head? = some c := by
  obtain ⟨t, rfl⟩ := h
  cases l1 with
  | nil => simp at hc
  | cons a t1 => simpa using hc

theorem head_trimL_not_ws (l : List Char) {c : Char}
    (h : (trimL l).head? = some c) : isWsB c = false := by
  have h2 : (l.dropWhile isWsB).head? = some c :=
    head?_some_of_front (dropTrailing_front isWsB (l.dropWhile isWsB)) h
  have h3 := List.head?_dropWhile_not isWsB l
  rw [h2] at h3
  simpa using h3

theorem getLast_trimL_not_ws (l : List Char) {c : Char}
    (h : (trimL l).getLast? = some c) : isWsB c = false := by
  rw [trimL, dropTrailing, List.getLast?_reverse] at h
  have h3 := List.head?_dropWhile_not isWsB (l.dropWhile isWsB).reverse
  rw [h] at h3
  simpa using h3

theorem mem_replaceChar {a b c : Char} {l : List Char} (h : c ∈ replaceChar a b l) :
    c = b ∨ (c ∈ l ∧ c ≠ a) := by
  rw [replaceChar] at h
  rcases List.mem_map.mp h with ⟨x, hx, hfx⟩
  by_cases hxa : x = a
  · rw [if_pos hxa] at hfx
    exact Or.inl hfx.symm
  · rw [if_neg hxa] at hfx
    subst hfx
    exact Or.inr ⟨hx, hxa⟩

theorem mem_ellipsisToDots {c : Char} {l : List Char} (h : c ∈ ellipsisToDots l) :
    c = '.' ∨ (c ∈ l ∧ c ≠ '…') := by
  rw [ellipsisToDots] at h
  rcases List.mem_flatMap.mp h with ⟨x, hx, hc⟩
  by_cases hxe : x = '…'
  · rw [if_pos hxe] at hc
    left
    rcases List.mem_cons.mp hc with rfl | hc2
    · rfl
    · rcases List.mem_cons.mp hc2 with rfl | hc3
      · rfl
      · simpa using hc3
  · rw [if_neg hxe] at hc
    have hcx : c = x := by simpa using hc
    subst hcx
    exact Or.inr ⟨hx, hxe⟩

theorem mem_lowerL_fixed {c : Char} {l : List Char} (h : c ∈ lowerL l) :
    Char.toLower c = c := by
  rw [lowerL] at h
  rcases List.mem_map.mp h with ⟨x, -, hfx⟩
  rw [← hfx]
  exact toLower_idem x

/-- The observable whitespace shape promised by the specification: every
whitespace character is a plain space, no two spaces are adjacent, and the
string neither starts nor ends with whitespace. -/
def wsNormalized (s : String) : Prop :=
  (∀ c ∈ s.data, isWsB c = true → c = ' ') ∧
  List.Chain' (fun a b => ¬(a = ' ' ∧ b = ' ')) s.data ∧
  (∀ c, s.data.head? = some c → isWsB c = false) ∧
  (∀ c, s.data.getLast? = some c → isWsB c = false)

theorem wsNormalized_trim_collapse (x : List Char) :
    wsNormalized ⟨trimL (collapseWs x)⟩ := by
  refine ⟨?_, ?_, ?_, ?_⟩
  · intro c hc hws
    rcases mem_collapseWsAux _ _ (mem_of_mem_trimL hc) with h | ⟨-, hnws⟩
    · exact h
    · rw [hws] at hnws
      cases hnws
  · exact List.Chain'.infix (chain_collapseWsAux x false) (trimL_within _)
  · intro c hc
    exact head_trimL_not_ws _ hc
  · intro c hc
    exact getLast_trimL_not_ws _ hc

theorem slug_shape (s : String) :
    slug s ≠ "" ∧ ∀ (c : Char) (cs : List Char), (slug s).data = c :: cs → c.isDigit = false := by
  rw [slug]
  cases hm : stripUnd (slugCollapseAux false (lowerL s.data)) with
  | nil =>
    simp only [slugFinish]
    constructor
    · intro h
      rw [String.ext_iff] at h
      simp at h
    · intro c cs h
      have hc : c = 'x' := by
        injection h with h1
        exact h1.symm
      rw [hc]
      decide
  | cons c0 cs0 =>
    simp only [slugFinish]
    by_cases hd : c0.isDigit = true
    · rw [if_pos hd]
      constructor
      · intro h
        rw [String.ext_iff, String.data_append] at h
        simp at h
      · intro c cs h
        rw [String.data_append] at h
        have hc : c = 'x' := by
          injection h with h1
          exact h1.symm
        rw [hc]
        decide
    · rw [if_neg hd]
      constructor
      · intro h
        rw [String.ext_iff] at h
        simp at h
      · intro c cs h
        have hc : c = c0 := by
          injection h with h1
          exact h1.symm
        rw [hc]
        simpa using hd

theorem findRule_first (t : String) :
    ∀ (l : List QRule) (k : Nat) (r : QRule),
      l[k]? = some r → r.cond t = true →
      (∀ r2 ∈ l.take k, r2.cond t = false) →
      findRule l t = (r.expr, r.shape) := by
  intro l
  induction l with
  | nil => intro k r hk; simp at hk
  | cons a rest ih =>
    intro k r hk hc hpre
    cases k with
    | zero =>
      rw [List.getElem?_cons_zero] at hk
      injection hk with h
      subst h
      simp only [findRule]
      rw [if_pos hc]
    | succ k =>
      have ha : a.cond t = false :=
        hpre a (by rw [List.take_succ_cons]; exact List.mem_cons_self _ _)
      simp only [findRule]
      rw [if_neg (by rw [ha]; simp)]
      refine ih k r ?_ hc ?_
      · rw [List.getElem?_cons_succ] at hk
        exact hk
      · intro r2 hr2
        exact hpre r2 (by rw [List.take_succ_cons]; exact List.mem_cons_of_mem _ hr2)

theorem findRule_nomatch (t : String) :
    ∀ (l : List QRule), (∀ r ∈ l, r.cond t = false) → findRule l t = (TODO_EXPR, "N/A") := by
  intro l
  induction l with
  | nil => intro h; rfl
  | cons a rest ih =>
    intro h
    simp only [findRule]
    rw [if_neg (by rw [h a (List.mem_cons_self a rest)]; simp)]
    exact ih (fun r hr => h r (List.mem_cons_of_mem _ hr))

/-! ### Claim theorems -/

/-- Claim C1: for every input text, the extracted fact list contains no two
entries with identical canonical rendering, and it equals the raw emission
sequence (in fixed rule-declaration order) with every later duplicate emission
dropped in place, so each retained fact occupies its first emission position. -/
theorem claim_C1 (text : String) :
    (extract_facts text).1.Nodup ∧
    (extract_facts text).1 = keepFirsts (rawFacts (norm text)) := by
  constructor
  · exact nodup_dedupFirstAux _ _
  · exact dedupFirst_eq_keepFirsts _

/-- Claim C6: on empty source text the fact extractor emits exactly the three
unconditional baseline facts and nothing else. -/
theorem claim_C6 :
    (extract_facts "").1 = ["company(google).", "actor(google).", "actor(user)."] := by
  decide

/-- Claim C2: if exactly one primary fact line lowercase-starts with
`collects(`, namely `collects(google, information).`, then the ad hoc executor
on the query `collects` returns exactly that line, predicate `collects`, and
count 1; in general, the resolved predicate is the text before the first `(`
(the whole trimmed string when no `(` is present), and the primary scan is the
case-insensitive exact prefix filter for `predicate(`. -/
theorem claim_C2 :
    (∀ (kb aug : List String),
        kb.filter (fun f => ("collects(" : String).data.isPrefixOf (lowerS f).data)
            = ["collects(google, information)."] →
        (execute_query "collects" kb aug).results = ["collects(google, information)."] ∧
        (execute_query "collects" kb aug).predicate = "collects" ∧
        (execute_query "collects" kb aug).count = 1) ∧
    (∀ (q : String) (kb aug : List String),
        (execute_query q kb aug).predicate = predicateSpec q) ∧
    (∀ (q : String) (kb : List String),
        predPrefixScan (predicateOf q) kb
          = kb.filter (fun f => (predicateOf q ++ "(").data.isPrefixOf (lowerS f).data)) := by
  refine ⟨?_, ?_, ?_⟩
  · intro kb aug h
    have hpred : predicateOf "collects" = "collects" := by decide
    have hb : (predicateOf "collects" == "synonym" || predicateOf "collects" == "is_a") = false := by
      decide
    have happ : ("collects" : String) ++ "(" = "collects(" := by decide
    have hex : exactResults "collects" kb aug = ["collects(google, information)."] := by
      rw [exactResults_of_plain "collects" kb aug hb, hpred, predPrefixScan, happ]
      exact h
    have hres : (execute_query "collects" kb aug).results
        = ["collects(google, information)."] := by
      rw [execute_query_results_of_exact_ne "collects" kb aug (by rw [hex]; simp), hex]
    refine ⟨hres, hpred, ?_⟩
    show (execute_query "collects" kb aug).results.length = 1
    rw [hres]
    rfl
  · intro q kb aug
    exact predicateOf_eq_spec q
  · intro q kb
    rfl

theorem claim_C2_witness :
    (execute_query "collects" ["collects(google, information)."] []).results
        = ["collects(google, information)."] ∧
    (execute_query "collects" ["collects(google, information)."] []).predicate = "collects" ∧
    (execute_query "collects" ["collects(google, information)."] []).count = 1 :=
  claim_C2.1 ["collects(google, information)."] [] (by decide)

/-- Claim C3: the fuzzy fallback runs exactly when the exact scans found
nothing and the original query contains `(`; it keeps every primary fact line
containing all parsed arguments other than empty pieces and the placeholder
`x`; in particular the query `collects(google, X)` against the single fact
`collects_tech_data(google, technical_data).` returns that fact. -/
theorem claim_C3 :
    (∀ (q : String) (kb aug : List String), exactResults q kb aug ≠ [] →
        (execute_query q kb aug).results = exactResults q kb aug) ∧
    (∀ (q : String) (kb aug : List String), charIn '(' q = false →
        (execute_query q kb aug).results = exactResults q kb aug) ∧
    (∀ (q : String) (kb aug : List String),
        exactResults q kb aug = [] → charIn '(' q = true →
        (execute_query q kb aug).results
          = kb.filter (fun fact => (parseArgs (queryLowerOf q)).all
              (fun arg => arg == "" || arg == "x" || containsSub arg (lowerS fact)))) ∧
    (execute_query "collects(google, X)" ["collects_tech_data(google, technical_data)."] []).results
        = ["collects_tech_data(google, technical_data)."] := by
  refine ⟨?_, ?_, ?_, by decide⟩
  · intro q kb aug h
    exact execute_query_results_of_exact_ne q kb aug h
  · intro q kb aug h
    exact execute_query_results_of_no_paren q kb aug (by rw [charIn_lparen_queryLower, h])
  · intro q kb aug h1 h2
    rw [execute_query_results_fuzzy q kb aug h1 (by rw [charIn_lparen_queryLower, h2])]
    rfl

theorem claim_C3_witness :
    (execute_query "collects" ["collects(google, information)."] []).results
        = exactResults "collects" ["collects(google, information)."] [] ∧
    (execute_query "nosuchpred(x, google)" ["collects(google, information)."] []).results
        = ["collects(google, information)."].filter
            (fun fact => (parseArgs (queryLowerOf "nosuchpred(x, google)")).all
              (fun arg => arg == "" || arg == "x" || containsSub arg (lowerS fact))) :=
  ⟨claim_C3.1 "collects" ["collects(google, information)."] [] (by decide),
   claim_C3.2.2.1 "nosuchpred(x, google)" ["collects(google, information)."] []
     (by decide) (by decide)⟩

/-- Claim C9: when the required paragraph source is absent, each pipeline entry
point fails with a precondition error whose message names the missing path, and
its write trace is empty — no artifact is written before the failure. -/
theorem claim_C9 (fs : KbFS) (vs : VocabFS)
    (h1 : fs.paragraphExists = false) (h2 : vs.paragraphExists = false) :
    buildKbMain fs = ([], some ("Missing " ++ KB_PAR_PATH)) ∧
    containsSub KB_PAR_PATH ("Missing " ++ KB_PAR_PATH) = true ∧
    buildVocabMain vs = ([], some ("paragraph not found: " ++ vs.paragraphPath)) ∧
    containsSub vs.paragraphPath ("paragraph not found: " ++ vs.paragraphPath) = true := by
  refine ⟨?_, by decide, ?_, ?_⟩
  · simp [buildKbMain, h1]
  · simp [buildVocabMain, h2]
  · exact containsSub_append_left "paragraph not found: " vs.paragraphPath

theorem claim_C9_witness :
    buildKbMain ⟨false, ""⟩ = ([], some ("Missing " ++ KB_PAR_PATH)) ∧
    buildVocabMain ⟨"data/paragraph.txt", false, "out"⟩
        = ([], some ("paragraph not found: " ++ "data/paragraph.txt")) :=
  ⟨(claim_C9 ⟨false, ""⟩ ⟨"data/paragraph.txt", false, "out"⟩ rfl rfl).1,
   (claim_C9 ⟨false, ""⟩ ⟨"data/paragraph.txt", false, "out"⟩ rfl rfl).2.2.1⟩

/-- Claim C10: a parenthesized query whose exact scans found nothing and whose
parsed arguments are all empty or the placeholder `x` makes the fuzzy fallback
vacuous, so the executor returns the entire primary fact list. -/
theorem claim_C10 (q : String) (kb aug : List String)
    (hpar : charIn '(' q = true)
    (hex : exactResults q kb aug = [])
    (hargs : ∀ a ∈ parseArgs (queryLowerOf q), a = "" ∨ a = "x") :
    (execute_query q kb aug).results = kb := by
  rw [execute_query_results_fuzzy q kb aug hex (by rw [charIn_lparen_queryLower, hpar])]
  simp only [fuzzyScan]
  apply List.filter_eq_self.mpr
  intro fact _
  rw [List.all_eq_true]
  intro a ha
  rcases hargs a ha with rfl | rfl <;> simp

theorem claim_C10_witness :
    (execute_query "nosuchpred(x, x)" ["collects(google, information).", "actor(user)."] []).results
      = ["collects(google, information).", "actor(user)."] :=
  claim_C10 "nosuchpred(x, x)" ["collects(google, information).", "actor(user)."] []
    (by decide) (by decide) (by decide)

/-- Claim C4: when no catalog trigger keyword occurs in the normalized text
joined with the sorted terms, the predicate selector returns exactly the
two-element fallback pair `collects/2` then `uses_for/2`; when at least one
catalog entry is triggered, it returns the triggered signatures in catalog
order and the result is non-empty. -/
theorem claim_C4 :
    (∀ (text : String) (terms : List String),
        (∀ p ∈ DEFAULT_PREDICATES, ∀ tr ∈ triggersFor p.1,
            containsSub (normalize tr) (joinedFor text terms) = false) →
        pick_predicates text terms
          = [PredicateSig.mk "collects" 2 "collects(Actor, DataType)",
             PredicateSig.mk "uses_for" 2 "uses_for(Actor, Purpose)"]) ∧
    (∀ (text : String) (terms : List String),
        (∃ p ∈ DEFAULT_PREDICATES, triggered (joinedFor text terms) p.1 = true) →
        pick_predicates text terms
            = (DEFAULT_PREDICATES.filter (fun p => triggered (joinedFor text terms) p.1)).map
                (fun p => PredicateSig.mk p.1 p.2.1 p.2.2) ∧
          pick_predicates text terms ≠ []) := by
  constructor
  · intro text terms h
    have hfil : DEFAULT_PREDICATES.filter (fun p => triggered (joinedFor text terms) p.1)
        = [] := by
      apply List.filter_eq_nil_iff.mpr
      intro p hp
      simp only [triggered, Bool.not_eq_true, List.any_eq_false]
      intro tr htr
      simp [h p hp tr htr]
    simp [pick_predicates, hfil]
  · rintro text terms ⟨p, hp, htrig⟩
    have hmem : p ∈ DEFAULT_PREDICATES.filter (fun q2 => triggered (joinedFor text terms) q2.1) :=
      List.mem_filter.mpr ⟨hp, htrig⟩
    have hmapne :
        (DEFAULT_PREDICATES.filter (fun q2 => triggered (joinedFor text terms) q2.1)).map
          (fun q2 => PredicateSig.mk q2.1 q2.2.1 q2.2.2) ≠ [] := by
      rw [Ne, List.map_eq_nil_iff]
      exact List.ne_nil_of_mem hmem
    have hsel : pick_predicates text terms
        = (DEFAULT_PREDICATES.filter (fun q2 => triggered (joinedFor text terms) q2.1)).map
            (fun q2 => PredicateSig.mk q2.1 q2.2.1 q2.2.2) := by
      simp only [pick_predicates]
      rw [List.isEmpty_eq_false.mpr hmapne]
      simp
    exact ⟨hsel, by rw [hsel]; exact hmapne⟩

theorem claim_C4_witness :
    pick_predicates "" []
        = [PredicateSig.mk "collects" 2 "collects(Actor, DataType)",
           PredicateSig.mk "uses_for" 2 "uses_for(Actor, Purpose)"] ∧
    pick_predicates "we collect data" [] ≠ [] :=
  ⟨claim_C4.1 "" [] (by decide),
   (claim_C4.2 "we collect data" []
      ⟨("collects", 2, "collects(Actor, DataType)"), by decide, by decide⟩).2⟩

/-- Claim C5: the question mapper returns the (expression, answer-shape) pair
of the first rule, in declared order, whose condition holds on the normalized
question, regardless of later rules, and returns the sentinel TODO expression
with shape `N/A` when no rule matches. -/
theorem claim_C5 :
    (∀ (q : String) (k : Nat) (r : QRule),
        RULES[k]? = some r → r.cond (normQ q) = true →
        (∀ r2 ∈ RULES.take k, r2.cond (normQ q) = false) →
        map_question_to_query q = (r.expr, r.shape)) ∧
    (∀ q : String, (∀ r ∈ RULES, r.cond (normQ q) = false) →
        map_question_to_query q = (TODO_EXPR, "N/A")) :=
  ⟨fun q k r hk hc hpre => findRule_first (normQ q) RULES k r hk hc hpre,
   fun q h => findRule_nomatch (normQ q) RULES h⟩

theorem claim_C5_witness :
    map_question_to_query "What information do you collect?"
        = ("collects(google, X).", "X (all collected data types)") ∧
    map_question_to_query "hello" = (TODO_EXPR, "N/A") :=
  ⟨claim_C5.1 "What information do you collect?" 0
      ⟨fun t => containsSub "what information" t && containsSub "collect" t,
       "collects(google, X).", "X (all collected data types)"⟩
      rfl (by decide) (by simp),
   claim_C5.2 "hello" (by decide)⟩

/-- Claim C7 counterexample: the claim asserts that the normalizer replaces the
ellipsis character by `...`, citing both `build_kb.norm` and
`build_vocab.normalize`; but `normalize` leaves the ellipsis character
unchanged, so on the input `…` it does not produce `...`. -/
theorem claim_C7_counterexample :
    normalize "…" = "…" ∧ norm "…" = "..." ∧ ("…" : String) ≠ "..." :=
  ⟨by decide, by decide, by decide⟩

/-- Claim C7 (amended): for every input string, `build_kb.norm` lowercases
(every output character is fixed by lowering), eliminates en/em dashes and the
ellipsis character, and produces whitespace collapsed to single interior
spaces with no leading or trailing whitespace; `build_vocab.normalize`
satisfies the same properties except that it performs no ellipsis replacement
(the ellipsis character passes through unchanged).  Both are total Lean
functions. -/
theorem claim_C7_amended (s : String) :
    ((∀ c ∈ (norm s).data, Char.toLower c = c) ∧
     '–' ∉ (norm s).data ∧ '—' ∉ (norm s).data ∧ '…' ∉ (norm s).data ∧
     wsNormalized (norm s)) ∧
    ((∀ c ∈ (normalize s).data, Char.toLower c = c) ∧
     '–' ∉ (normalize s).data ∧ '—' ∉ (normalize s).data ∧
     wsNormalized (normalize s)) ∧
    normalize "…" = "…" := by
  refine ⟨⟨?_, ?_, ?_, ?_, ?_⟩, ⟨?_, ?_, ?_, ?_⟩, by decide⟩
  · intro c hc
    rcases mem_collapseWsAux _ _ (mem_of_mem_trimL hc) with rfl | ⟨h1, -⟩
    · decide
    rcases mem_ellipsisToDots h1 with rfl | ⟨h2, -⟩
    · decide
    rcases mem_replaceChar h2 with rfl | ⟨h3, -⟩
    · decide
    rcases mem_replaceChar h3 with rfl | ⟨h4, -⟩
    · decide
    exact mem_lowerL_fixed h4
  · intro hc
    rcases mem_collapseWsAux _ _ (mem_of_mem_trimL hc) with h | ⟨h1, -⟩
    · exact absurd h (by decide)
    rcases mem_ellipsisToDots h1 with h | ⟨h2, -⟩
    · exact absurd h (by decide)
    rcases mem_replaceChar h2 with h | ⟨h3, -⟩
    · exact absurd h (by decide)
    rcases mem_replaceChar h3 with h | ⟨-, h4⟩
    · exact absurd h (by decide)
    exact h4 rfl
  · intro hc
    rcases mem_collapseWsAux _ _ (mem_of_mem_trimL hc) with h | ⟨h1, -⟩
    · exact absurd h (by decide)
    rcases mem_ellipsisToDots h1 with h | ⟨h2, -⟩
    · exact absurd h (by decide)
    rcases mem_replaceChar h2 with h | ⟨-, h3⟩
    · exact absurd h (by decide)
    exact h3 rfl
  · intro hc
    rcases mem_collapseWsAux _ _ (mem_of_mem_trimL hc) with h | ⟨h1, -⟩
    · exact absurd h (by decide)
    rcases mem_ellipsisToDots h1 with h | ⟨-, h2⟩
    · exact absurd h (by decide)
    exact h2 rfl
  · exact wsNormalized_trim_collapse _
  · intro c hc
    rcases mem_collapseWsAux _ _ (mem_of_mem_trimL hc) with rfl | ⟨h1, -⟩
    · decide
    rcases mem_replaceChar h1 with rfl | ⟨h2, -⟩
    · decide
    rcases mem_replaceChar h2 with rfl | ⟨h3, -⟩
    · decide
    exact mem_lowerL_fixed h3
  · intro hc
    rcases mem_collapseWsAux _ _ (mem_of_mem_trimL hc) with h | ⟨h1, -⟩
    · exact absurd h (by decide)
    rcases mem_replaceChar h1 with h | ⟨h2, -⟩
    · exact absurd h (by decide)
    rcases mem_replaceChar h2 with h | ⟨-, h3⟩
    · exact absurd h (by decide)
    exact h3 rfl
  · intro hc
    rcases mem_collapseWsAux _ _ (mem_of_mem_trimL hc) with h | ⟨h1, -⟩
    · exact absurd h (by decide)
    rcases mem_replaceChar h1 with h | ⟨-, h2⟩
    · exact absurd h (by decide)
    exact h2 rfl
  · exact wsNormalized_trim_collapse _

theorem claim_C7_witness :
    Char.toLower 'a' = 'a' ∧ '–' ∉ (norm "A – b…").data :=
  ⟨(claim_C7_amended "A – b…").1.1 'a' (by decide),
   (claim_C7_amended "A – b…").1.2.1⟩

/-- Claim C8 counterexample: the claim asserts that the slug rule (collapse
non-alphanumeric runs, strip underscores, escape a leading digit, sentinel for
empty) is the constant-forming rule used wherever constants are derived from
source phrases, citing `build_vocab.write_prolog`; but `write_prolog` maps
each character outside `[a-z0-9_]` to one underscore with no collapsing,
stripping, digit escape, or sentinel, and the two rules disagree already on
the claim's own example phrase. -/
theorem claim_C8_counterexample :
    vocabConst "IP Address!" = "ip_address_" ∧ slug "IP Address!" = "ip_address" ∧
    vocabConst "IP Address!" ≠ slug "IP Address!" :=
  ⟨by decide, by decide, by decide⟩

/-- Claim C8 (amended): the WordNet-augmentation slug rule lowercases,
collapses each non-alphanumeric run to a single underscore with no leading or
trailing underscore, escapes a leading digit with `x_`, and maps an empty
result to the sentinel `x` (so its output is never empty and never starts with
a digit); `IP Address!` slugifies to `ip_address` and `2FA` to `x_2fa`.  The
vocabulary Prolog writer, however, forms constants by replacing each character
outside `[a-z0-9_]` with one underscore, giving `ip_address_` and `2fa` on the
same inputs. -/
theorem claim_C8_amended :
    slug "IP Address!" = "ip_address" ∧ slug "2FA" = "x_2fa" ∧
    (∀ s : String, slug s ≠ "") ∧
    (∀ (s : String) (c : Char) (cs : List Char),
        (slug s).data = c :: cs → c.isDigit = false) ∧
    vocabConst "IP Address!" = "ip_address_" ∧ vocabConst "2FA" = "2fa" :=
  ⟨by decide, by decide,
   fun s => (slug_shape s).1,
   fun s c cs h => (slug_shape s).2 c cs h,
   by decide, by decide⟩

theorem claim_C8_witness :
    slug "2FA" = "x_2fa" ∧ Char.isDigit 'x' = false :=
  ⟨claim_C8_amended.2.1,
   claim_C8_amended.2.2.2.1 "2FA" 'x' ['_', '2', 'f', 'a'] (by decide)⟩

end CS229Privacy
